import Mathlib

/-!
Verification of the DeepStudy dialogue-graph backend.

This file gives a shallow embedding of the Python backend
(`backend/data/neo4j_client.py`, `backend/agent/intent_router.py`,
`backend/agent/orchestrator.py`, `backend/api/routes/chat.py`,
`backend/api/routes/mindmap.py`) and proves or refutes the specification
claims about it.

The Neo4j property graph is modelled as a list of property nodes plus a
list of typed directed edges between node positions (Neo4j internal
identity is the position in the node list; `node_id` is an ordinary,
possibly missing, property, exactly as in the store).  Cypher statements
executed by the client are translated query-by-query into functions on
this state.  Strings are compared codepoint-lexicographically, matching
how the store orders the ISO-8601 `timestamp` strings.
-/

/-! ## Codepoint-lexicographic comparison of strings

`ORDER BY child.timestamp` in the tree query sorts string properties
lexicographically; we model the comparison on the character lists. -/

/-- Lexicographic (codepoint) comparison of character lists, `a ≤ b`. -/
def clLe : List Char → List Char → Bool
  | [], _ => true
  | _ :: _, [] => false
  | c :: cs, d :: ds => if c = d then clLe cs ds else decide (c < d)

/-- Lexicographic comparison of strings. -/
def strLe (a b : String) : Bool :=
  clLe a.data b.data

theorem clLe_total : ∀ a b, clLe a b = true ∨ clLe b a = true
  | [], _ => Or.inl rfl
  | _ :: _, [] => Or.inr rfl
  | c :: cs, d :: ds => by
    by_cases h : c = d
    · subst h
      simpa [clLe] using clLe_total cs ds
    · rcases lt_or_gt_of_ne h with h' | h'
      · exact Or.inl (by simp [clLe, h, h'])
      · exact Or.inr (by simp [clLe, Ne.symm h, h', not_lt_of_gt h'])

theorem strLe_total (a b : String) : strLe a b = true ∨ strLe b a = true :=
  clLe_total a.data b.data

/-! ## Graph store state

A stored node carries the Neo4j label and the properties that the code
reads or writes; a property that a node does not have is `none` (Cypher
`null`).  Edges point at node positions (Neo4j internal ids). -/

/-- A node of the property graph, as the client's queries see it. -/
structure StoredNode where
  label : String
  node_id : Option String
  user_id : Option String
  role : Option String
  content : Option String
  intent : Option String
  mastery_score : Option Rat
  timestamp : Option String
  title : Option String
  ntype : Option String
deriving DecidableEq, Repr

/-- A typed directed relationship between two node positions. -/
structure StoredEdge where
  src : Nat
  tgt : Nat
  typ : String
  fragment_id : Option String
deriving DecidableEq, Repr

/-- The property-graph state owned by the Neo4j backend. -/
structure Graph where
  nodes : List StoredNode
  edges : List StoredEdge
deriving DecidableEq, Repr

/-- `MATCH (n:DialogueNode {node_id: $nid})` membership test for one node. -/
def isDialogueWithId (nid : String) (n : StoredNode) : Bool :=
  n.label = "DialogueNode" && n.node_id = some nid

/-- Does some `DialogueNode` with the given `node_id` property exist? -/
def existsDialogue (g : Graph) (nid : String) : Bool :=
  g.nodes.any (isDialogueWithId nid)

/-! ## `Neo4jClient.save_dialogue_node`

```
MERGE (n:DialogueNode {node_id: $node_id})
SET n.user_id = $user_id, n.role = $role, n.content = $content,
    n.intent = $intent, n.mastery_score = $mastery_score,
    n.timestamp = $timestamp
```
`MERGE` binds every existing match and applies `SET` to each, or creates
the node when there is no match.  The Python wrapper replaces a missing
`timestamp` argument by `datetime.utcnow()`; the current clock reading is
passed in as `now`. -/

/-- The `SET` clause of `save_dialogue_node` applied to one bound node. -/
def setDialogueFields (uid role content : String) (intent : Option String)
    (ms : Rat) (ts : String) (n : StoredNode) : StoredNode :=
  { n with user_id := some uid, role := some role, content := some content,
           intent := intent, mastery_score := some ms, timestamp := some ts }

/-- The node created by `MERGE` when no `DialogueNode` with this
`node_id` exists. -/
def freshDialogueNode (nid uid role content : String) (intent : Option String)
    (ms : Rat) (ts : String) : StoredNode :=
  { label := "DialogueNode", node_id := some nid, user_id := some uid,
    role := some role, content := some content, intent := intent,
    mastery_score := some ms, timestamp := some ts, title := none,
    ntype := none }

/-- The per-node effect of `MERGE ... SET`: a bound match is updated,
any other node is untouched. -/
def updFn (nid uid role content : String) (intent : Option String)
    (ms : Rat) (ts : String) (n : StoredNode) : StoredNode :=
  if isDialogueWithId nid n then setDialogueFields uid role content intent ms ts n
  else n

/-- `Neo4jClient.save_dialogue_node` (neo4j_client.py:159-202). -/
def save_dialogue_node (g : Graph) (node_id user_id role content : String)
    (intent : Option String) (mastery_score : Rat)
    (timestamp : Option String) (now : String) : Graph :=
  let ts := timestamp.getD now
  if g.nodes.any (isDialogueWithId node_id) then
    { g with nodes :=
        g.nodes.map (updFn node_id user_id role content intent mastery_score ts) }
  else
    { g with nodes := g.nodes ++
        [freshDialogueNode node_id user_id role content intent mastery_score ts] }

/-! ## `Neo4jClient.link_dialogue_nodes` (neo4j_client.py:204-255)

The method first checks that a `DialogueNode` with the parent id exists,
then that one with the child id exists, raising `ValueError` otherwise
(the store is left untouched, which the pair result makes explicit).
It then runs a `MATCH`/`MERGE`: for `fragment_id` truthy it merges
`[r:HAS_CHILD {fragment_id: $fragment_id}]`, otherwise `[r:HAS_CHILD]`
(matching any existing `HAS_CHILD` edge between the endpoints). -/

/-- Positions of `DialogueNode`s carrying the given `node_id` property. -/
def dialogueIdxs (g : Graph) (nid : String) : List Nat :=
  (g.nodes.enum.filter (fun p => isDialogueWithId nid p.2)).map (fun p => p.1)

/-- Does an edge satisfy the `MERGE` pattern between positions `a` and `b`?
With a truthy fragment the pattern pins `fragment_id`; without, any
`HAS_CHILD` edge between the endpoints matches. -/
def edgeMatches (frag : Option String) (a b : Nat) (e : StoredEdge) : Bool :=
  e.src = a && e.tgt = b && e.typ = "HAS_CHILD" &&
    (match frag with
     | none => true
     | some f => e.fragment_id = some f)

/-- Python truthiness of the optional `fragment_id` argument: `None` and
the empty string select the property-less `MERGE` branch. -/
def effFrag : Option String → Option String
  | none => none
  | some f => if f = "" then none else some f

/-- Row-by-row `MERGE` over the cartesian product of parent and child
matches: each row creates the edge unless a matching one already exists
(also seeing edges created by earlier rows of the same statement). -/
def mergePairs (frag : Option String) : List StoredEdge → List (Nat × Nat) → List StoredEdge
  | es, [] => es
  | es, (a, b) :: rest =>
    if es.any (edgeMatches frag a b) then mergePairs frag es rest
    else mergePairs frag
      (es ++ [{ src := a, tgt := b, typ := "HAS_CHILD", fragment_id := frag }]) rest

/-- The parent/child match pairs of the `MATCH` clause of the `MERGE`
statement. -/
def linkPairs (g : Graph) (parent_node_id child_node_id : String) :
    List (Nat × Nat) :=
  (dialogueIdxs g parent_node_id).flatMap (fun a =>
    (dialogueIdxs g child_node_id).map (fun b => (a, b)))

/-- The store after the `MERGE` statement of `link_dialogue_nodes`. -/
def linkBody (g : Graph) (parent_node_id child_node_id : String)
    (fragment_id : Option String) : Graph :=
  let es := mergePairs (effFrag fragment_id) g.edges
    (linkPairs g parent_node_id child_node_id)
  { g with edges := es }

/-- `Neo4jClient.link_dialogue_nodes`: returns the new store state and
`some message` when the Python code raises `ValueError`. -/
def link_dialogue_nodes (g : Graph) (parent_node_id child_node_id : String)
    (fragment_id : Option String) : Graph × Option String :=
  if existsDialogue g parent_node_id = false then
    (g, some ("父节点不存在: " ++ parent_node_id))
  else if existsDialogue g child_node_id = false then
    (g, some ("子节点不存在: " ++ child_node_id))
  else
    (linkBody g parent_node_id child_node_id fragment_id, none)

/-- Does the store contain an edge matching the `MERGE` pattern between
some parent/child match pair for the two `node_id`s? -/
def linkedEdgeExists (g : Graph) (parent_node_id child_node_id : String)
    (fragment_id : Option String) : Bool :=
  (dialogueIdxs g parent_node_id).any (fun a =>
    (dialogueIdxs g child_node_id).any (fun b =>
      g.edges.any (edgeMatches (effFrag fragment_id) a b)))

/-! ## `Neo4jClient.get_dialogue_tree` (neo4j_client.py:281-345) -/

/-- The tree of nested node dictionaries built by `get_dialogue_tree`. -/
inductive DTree where
  | mk (node : StoredNode) (children : List DTree)
deriving Repr

def DTree.node : DTree → StoredNode
  | .mk n _ => n

def DTree.children : DTree → List DTree
  | .mk _ cs => cs

/-- Cypher ascending `ORDER BY` over a possibly-null string property:
values sort lexicographically, `null` sorts last. -/
def optLe (a b : Option String) : Bool :=
  match a, b with
  | none, none => true
  | none, some _ => false
  | some _, none => true
  | some x, some y => strLe x y

/-- `ORDER BY child.timestamp` comparison between two child rows. -/
def rowLe (a b : StoredNode) : Bool :=
  optLe a.timestamp b.timestamp

/-- Insert into a run kept in nondecreasing order (ties keep the earlier
element first, as the store's sort does to equal keys in row order). -/
def orderedInsertB {α : Type} (le : α → α → Bool) (a : α) : List α → List α
  | [] => [a]
  | b :: l => if le a b then a :: b :: l else b :: orderedInsertB le a l

/-- Sort of the result rows of one child query. -/
def insertionSortB {α : Type} (le : α → α → Bool) : List α → List α
  | [] => []
  | a :: l => orderedInsertB le a (insertionSortB le l)

/-- Result rows of
`MATCH (parent:DialogueNode {node_id: $parent_id})-[:HAS_CHILD]->(child:DialogueNode) RETURN child`
in store order. -/
def childRows (g : Graph) (parent_id : String) : List StoredNode :=
  (dialogueIdxs g parent_id).flatMap (fun a =>
    g.edges.filterMap (fun e =>
      if e.src = a && e.typ = "HAS_CHILD" then
        match g.nodes.get? e.tgt with
        | some c => if c.label = "DialogueNode" then some c else none
        | none => none
      else none))

/-- The same rows after `ORDER BY child.timestamp`. -/
def sortedChildRows (g : Graph) (parent_id : String) : List StoredNode :=
  insertionSortB rowLe (childRows g parent_id)

/-- The inner `get_children(parent_id, depth)` recursion: the fuel is
`max_depth - depth`, so fuel `0` is the `depth >= max_depth` cut-off.
A row whose node has no (or a falsy, empty) `node_id` is skipped. -/
def get_children (g : Graph) : Nat → String → List DTree
  | 0, _ => []
  | fuel + 1, parent_id =>
    (sortedChildRows g parent_id).filterMap (fun c =>
      match c.node_id with
      | none => none
      | some cid =>
        if cid = "" then none
        else some (DTree.mk c (get_children g fuel cid)))

/-- The root query
`MATCH (n:DialogueNode {node_id: $node_id, user_id: $user_id}) RETURN n`
resolved with `.single()` (first record). -/
def rootFind (g : Graph) (nid uid : String) : Option StoredNode :=
  g.nodes.find? (fun n =>
    n.label = "DialogueNode" && n.node_id = some nid && n.user_id = some uid)

/-- `Neo4jClient.get_dialogue_tree`. -/
def get_dialogue_tree (g : Graph) (root_node_id user_id : String)
    (max_depth : Nat := 10) : Option DTree :=
  match rootFind g root_node_id user_id with
  | none => none
  | some root =>
    let root' := match root.node_id with
      | none => { root with node_id := some root_node_id }
      | some _ => root
    some (DTree.mk root' (get_children g max_depth root_node_id))

/-! ## The `/chat/conversation/{id}` route (chat.py:72-126) -/

/-- The response model the route converts the tree into. -/
inductive DialogueNodeBase where
  | mk (node_id : String) (parent_id : Option String) (user_id : String)
      (role : String) (content : String) (intent : Option String)
      (mastery_score : Rat) (timestamp : Option String)
      (children : List DialogueNodeBase)
deriving Repr

mutual

/-- `convert_node` of `get_conversation`, with its field defaults. -/
def convert_node (user_id : String) : DTree → DialogueNodeBase
  | .mk n cs =>
    .mk (n.node_id.getD "") none (n.user_id.getD user_id)
      (n.role.getD "assistant") (n.content.getD "") n.intent
      (n.mastery_score.getD 0) n.timestamp (convert_forest user_id cs)

def convert_forest (user_id : String) : List DTree → List DialogueNodeBase
  | [] => []
  | t :: ts => convert_node user_id t :: convert_forest user_id ts

end

/-- `get_conversation`: `404` is raised when the tree lookup returns a
falsy value (`None`). -/
def get_conversation (g : Graph) (conversation_id user_id : String) :
    Except Nat DialogueNodeBase :=
  match get_dialogue_tree g conversation_id user_id 10 with
  | none => Except.error 404
  | some t => Except.ok (convert_node user_id t)

/-! ## Observables of the returned trees (for stating the claims) -/

mutual

/-- Depth of the deepest node below this node. -/
def treeHeight : DTree → Nat
  | .mk _ cs => forestHeight cs

def forestHeight : List DTree → Nat
  | [] => 0
  | t :: ts => max (treeHeight t + 1) (forestHeight ts)

end

mutual

/-- Every node of the forest has a non-empty `node_id` property,
recursively. -/
def forestIdsOk : List DTree → Bool
  | [] => true
  | t :: ts => nodeIdOk t && forestIdsOk ts

def nodeIdOk : DTree → Bool
  | .mk n cs =>
    (match n.node_id with
     | some s => decide (s ≠ "")
     | none => false) && forestIdsOk cs

end

mutual

/-- Is some `node_id` repeated along a root-to-node path, given the ids
already seen above? -/
def treePathDup : List (Option String) → DTree → Bool
  | seen, .mk n cs =>
    decide (n.node_id ∈ seen) || forestPathDup (n.node_id :: seen) cs

def forestPathDup : List (Option String) → List DTree → Bool
  | _, [] => false
  | seen, t :: ts => treePathDup seen t || forestPathDup seen ts

end

/-- Does some root-to-node path of the tree repeat a `node_id`? -/
def hasPathDup (t : DTree) : Bool :=
  treePathDup [] t

/-- Adjacent-pair ordering check of a list. -/
def chainLeB {α : Type} (le : α → α → Bool) : List α → Bool
  | [] => true
  | [_] => true
  | a :: b :: l => le a b && chainLeB le (b :: l)

/-- Child-row order actually guaranteed by the query: ascending
`timestamp`. -/
def childLe (a b : DTree) : Bool :=
  optLe a.node.timestamp b.node.timestamp

mutual

/-- Children at every level are in ascending `timestamp` order. -/
def treeTsSorted : DTree → Bool
  | .mk _ cs => chainLeB childLe cs && forestTsSorted cs

def forestTsSorted : List DTree → Bool
  | [] => true
  | t :: ts => treeTsSorted t && forestTsSorted ts

end

/-- The ordering claimed by the spec: ascending `timestamp` with ties
broken by lexical `node_id` order. -/
def claimKeyLe (a b : DTree) : Bool :=
  if a.node.timestamp = b.node.timestamp then optLe a.node.node_id b.node.node_id
  else optLe a.node.timestamp b.node.timestamp

/-- Are the children of the root ordered as the spec claims? -/
def claimOrdered (t : DTree) : Bool :=
  chainLeB claimKeyLe t.children

/-! ## `IntentRouter.route` (intent_router.py:50-82) -/

/-- The three intents of `IntentType(str, Enum)`. -/
inductive IntentType where
  | DERIVATION
  | CODE
  | CONCEPT
deriving DecidableEq, Repr

/-- The whitespace set of Python's `str.strip()` (ASCII part; the LLM
completion text is matched on ASCII and CJK characters, which `strip`
never removes from the inside). -/
def pyIsSpace (c : Char) : Bool :=
  c = ' ' || c = '\t' || c = '\n' || c = '\r' || c = '\x0b' || c = '\x0c'

/-- `str.strip()` on the character list. -/
def trimL (s : List Char) : List Char :=
  ((s.dropWhile pyIsSpace).reverse.dropWhile pyIsSpace).reverse

/-- `str.lower()` (ASCII case folding; the patterns matched are ASCII or
CJK, which are fixed points). -/
def lowerL (s : List Char) : List Char :=
  s.map Char.toLower

/-- Python's `in` substring test. -/
def containsL (pat s : List Char) : Bool :=
  decide (pat <:+: s)

/-- `IntentRouter.route`: the completion call either raises (`.error`)
or yields the response text; the parsed text is
`response.text.strip().lower()`. -/
def route (completion : Except String String) : IntentType :=
  match completion with
  | .error _ => IntentType.CONCEPT
  | .ok text =>
    let intent_str := lowerL (trimL text.data)
    if containsL "code".data intent_str || containsL "代码".data intent_str then
      IntentType.CODE
    else if containsL "derivation".data intent_str || containsL "推导".data intent_str then
      IntentType.DERIVATION
    else
      IntentType.CONCEPT

/-- The claim-level predicate: the completion response text contains the
pattern case-insensitively (no reference to `strip`). -/
def mentionsCI (pat text : String) : Bool :=
  containsL pat.data (lowerL text.data)

/-! ## `AgentOrchestrator` and the `/chat` route
(orchestrator.py:47-122, chat.py:19-69) -/

/-- The response schema the orchestrator returns. -/
structure AgentResponse where
  answer : String
  fragments : List String
  knowledge_triples : List String
  conversation_id : String
  parent_id : Option String
deriving DecidableEq, Repr

/-- Modelled from the spec: `backend/agent/strategies.py` is not among
the sources; §4.4 specifies each intent's strategy as a completion-backed
capability `answer(query, context) -> AnswerText` with no graph-store
access, so a strategy is an oracle from intent and query to answer text
and the response object it builds carries only that answer. -/
def strategy_process (strategies : IntentType → String → String)
    (intent : IntentType) (query : String) : AgentResponse :=
  { answer := strategies intent query, fragments := [],
    knowledge_triples := [], conversation_id := "", parent_id := none }

/-- `AgentOrchestrator.process_query`: classify, dispatch to the
strategy, then set `conversation_id` to a fresh uuid and `parent_id` to
the supplied parent.  The store state `g` is threaded to make the
method's graph effects observable: it performs no store operation. -/
def process_query (classify : Except String String)
    (strategies : IntentType → String → String) (freshId : String)
    (g : Graph) (user_id query : String) (parent_id : Option String) :
    AgentResponse × Graph :=
  let intent := route classify
  let resp := strategy_process strategies intent query
  ({ resp with conversation_id := freshId, parent_id := parent_id }, g)

/-- `AgentOrchestrator.process_recursive_query`: one completion call on
the recursive prompt; a completion failure propagates (the route maps it
to a 500).  No store operation is performed. -/
def process_recursive_query (complete : Except String String)
    (freshId : String) (g : Graph)
    (user_id parent_id fragment_id query : String) :
    Except String (AgentResponse × Graph) :=
  match complete with
  | .error e => Except.error e
  | .ok text =>
    Except.ok ({ answer := text, fragments := [], knowledge_triples := [],
                 conversation_id := freshId, parent_id := some parent_id }, g)

/-- The `/chat` POST route: a truthy `ref_fragment_id` selects the
recursive path (with `parent_id or ""`), otherwise `process_query`. -/
def chat (classify : Except String String)
    (strategies : IntentType → String → String)
    (complete : Except String String) (freshId : String) (g : Graph)
    (user_id query : String) (parent_id ref_fragment_id : Option String) :
    Except String (AgentResponse × Graph) :=
  match ref_fragment_id with
  | some f =>
    if f = "" then
      Except.ok (process_query classify strategies freshId g user_id query parent_id)
    else
      process_recursive_query complete freshId g user_id (parent_id.getD "") f query
  | none =>
    Except.ok (process_query classify strategies freshId g user_id query parent_id)

/-- Number of stored nodes with `role = "assistant"`. -/
def countAssistantNodes (g : Graph) : Nat :=
  (g.nodes.filter (fun n => n.role = some "assistant")).length

/-! ## The mind-map route (mindmap.py:15-117) -/

/-- One row returned by the route's Cypher text. -/
structure MMRow where
  source_id : Option String
  source_title : Option String
  source_content : Option String
  source_type : Option String
  target_id : Option String
  target_title : Option String
  target_content : Option String
  target_type : Option String
  rel_id : Option String
  rel_type : String
deriving DecidableEq, Repr

/-- `MATCH (n:DialogueNode) WHERE n.node_id = $cid OR n.node_id = $cid + "_root"`. -/
def anchorIdxs (g : Graph) (cid : String) : List Nat :=
  (g.nodes.enum.filter (fun p =>
    p.2.label = "DialogueNode" &&
      (p.2.node_id = some cid || p.2.node_id = some (cid ++ "_root")))).map
    (fun p => p.1)

/-- `OPTIONAL MATCH (n)<-[:HAS_CHILD|HAS_KEYWORD]-(parent)`: the sources
of typed edges into position `n` — a single backward hop. -/
def typedParentIdxs (g : Graph) (n : Nat) : List Nat :=
  (g.edges.filter (fun e =>
    e.tgt = n && (e.typ = "HAS_CHILD" || e.typ = "HAS_KEYWORD"))).map
    (fun e => e.src)

/-- Outgoing relationships of a position, with their backend identities. -/
def outgoingEdges (g : Graph) (r : Nat) : List (Nat × StoredEdge) :=
  g.edges.enum.filter (fun p => p.2.src = r)

/-- The route's Cypher statement: anchors, `coalesce(parent, n)` as
root (one row per parent when any exists), then all outgoing edges of
each root with the projected properties. -/
def mindmap_cypher (g : Graph) (cid : String) : List MMRow :=
  (anchorIdxs g cid).flatMap (fun n =>
    let parents := typedParentIdxs g n
    let roots := if parents.isEmpty then [n] else parents
    roots.flatMap (fun r =>
      match g.nodes.get? r with
      | none => []
      | some rootN =>
        (outgoingEdges g r).filterMap (fun p =>
          match g.nodes.get? p.2.tgt with
          | none => none
          | some childN =>
            some { source_id := rootN.node_id, source_title := rootN.title,
                   source_content := rootN.content, source_type := rootN.ntype,
                   target_id := childN.node_id, target_title := childN.title,
                   target_content := childN.content, target_type := childN.ntype,
                   rel_id := some (toString p.1), rel_type := p.2.typ })))

/-- A React-Flow node dictionary (`data` flattened into two fields). -/
structure VisualNode where
  id : String
  vtype : String
  label : String
  dataType : String
deriving DecidableEq, Repr

/-- A React-Flow edge dictionary. -/
structure VisualEdge where
  id : String
  source : String
  target : String
  label : String
deriving DecidableEq, Repr

/-- The `MindMapGraph` response model. -/
structure MindMapGraph where
  nodes : List VisualNode
  edges : List VisualEdge
deriving DecidableEq, Repr

/-- Python truthiness of an optional string: `None` and `""` are falsy. -/
def optTruthy : Option String → Option String
  | some s => if s = "" then none else some s
  | none => none

/-- The route's label rule: `title or content or placeholder`, truncated
to 15 characters plus an ellipsis when long and no truthy title. -/
def pyLabel (title content : Option String) (placeholder : String) : String :=
  let label := (optTruthy title).getD ((optTruthy content).getD placeholder)
  if label.length > 15 && (optTruthy title).isNone then
    String.mk (label.data.take 15) ++ "..."
  else label

/-- Key lookup in the ordered `nodes_dict`. -/
def hasKey (d : List (String × VisualNode)) (k : String) : Bool :=
  d.any (fun p => p.1 = k)

/-- The row loop of `get_mind_map`: skip rows with a falsy source,
target or relationship id, deduplicate nodes by id keeping the first
label, and append every surviving edge. -/
def buildMindMap (records : List MMRow) : MindMapGraph :=
  let res := records.foldl
    (fun (acc : List (String × VisualNode) × List VisualEdge) (r : MMRow) =>
      match optTruthy r.source_id, optTruthy r.target_id, optTruthy r.rel_id with
      | some s_id, some t_id, some r_id =>
        let d1 :=
          if hasKey acc.1 s_id then acc.1
          else acc.1 ++ [(s_id,
            { id := s_id, vtype := "default",
              label := pyLabel r.source_title r.source_content "核心概念",
              dataType := (optTruthy r.source_type).getD "root" })]
        let d2 :=
          if hasKey d1 t_id then d1
          else d1 ++ [(t_id,
            { id := t_id, vtype := "default",
              label := pyLabel r.target_title r.target_content "子节点",
              dataType := (optTruthy r.target_type).getD "keyword" })]
        (d2, acc.2 ++ [{ id := r_id, source := s_id, target := t_id,
                         label := r.rel_type }])
      | _, _, _ => acc)
    ([], [])
  { nodes := res.1.map (fun p => p.2), edges := res.2 }

/-- The methods the `Neo4jClient` class defines (neo4j_client.py). -/
def neo4jClientMethods : List String :=
  ["close", "create_node", "create_relationship", "get_node_by_name",
   "get_related_nodes", "save_dialogue_node", "link_dialogue_nodes",
   "get_dialogue_node", "get_dialogue_tree"]

/-- The attribute access `neo4j_client.query(cypher, params)` in the
route: the class defines no `query` method, so the access raises
`AttributeError` before any query reaches the store; otherwise it would
run the statement. -/
def clientQueryCall (g : Graph) (cid : String) : Except String (List MMRow) :=
  if neo4jClientMethods.contains "query" then Except.ok (mindmap_cypher g cid)
  else Except.error "AttributeError: Neo4jClient object has no attribute query"

/-- The `/mindmap/{conversation_id}` route: any exception inside the
`try` block is absorbed into the empty graph. -/
def get_mind_map (g : Graph) (conversation_id user_id : String) : MindMapGraph :=
  match clientQueryCall g conversation_id with
  | Except.ok records => buildMindMap records
  | Except.error _ => { nodes := [], edges := [] }

/-! ## Concrete store states used by witnesses and counterexamples -/

/-- A well-formed dialogue node as `save_dialogue_node` writes it. -/
def mkDNode (nid uid role content ts : String) : StoredNode :=
  { label := "DialogueNode", node_id := some nid, user_id := some uid,
    role := some role, content := some content, intent := none,
    mastery_score := some 0, timestamp := some ts, title := none,
    ntype := none }

/-- The empty store. -/
def G0 : Graph :=
  { nodes := [], edges := [] }

/-- A store with a `HAS_CHILD` cycle back to the root: `A -> A`. -/
def Gcyc : Graph :=
  { nodes := [mkDNode "A" "u" "assistant" "hello" "2024-01-01T00:00:00"],
    edges := [{ src := 0, tgt := 0, typ := "HAS_CHILD", fragment_id := none }] }

/-- Root with a malformed child (no `node_id` property) and a good one. -/
def G4 : Graph :=
  { nodes := [mkDNode "A" "u" "assistant" "root" "2024-01-01T00:00:00",
              { label := "DialogueNode", node_id := none, user_id := some "u",
                role := some "user", content := some "broken", intent := none,
                mastery_score := some 0,
                timestamp := some "2024-01-01T01:00:00", title := none,
                ntype := none },
              mkDNode "B" "u" "user" "ok" "2024-01-01T02:00:00"],
    edges := [{ src := 0, tgt := 1, typ := "HAS_CHILD", fragment_id := none },
              { src := 0, tgt := 2, typ := "HAS_CHILD", fragment_id := none }] }

/-- Two children with equal timestamps stored in anti-lexical order. -/
def G5 : Graph :=
  { nodes := [mkDNode "p" "u" "assistant" "root" "2024-01-01T00:00:00",
              mkDNode "b" "u" "user" "second" "2024-01-01T01:00:00",
              mkDNode "a" "u" "user" "first" "2024-01-01T01:00:00"],
    edges := [{ src := 0, tgt := 1, typ := "HAS_CHILD", fragment_id := none },
              { src := 0, tgt := 2, typ := "HAS_CHILD", fragment_id := none }] }

/-- Two linkable dialogue nodes and no edges. -/
def G6 : Graph :=
  { nodes := [mkDNode "p" "u" "assistant" "parent" "t0",
              mkDNode "c" "u" "user" "child" "t1"],
    edges := [] }

/-- A store whose only root belongs to user `alice`. -/
def G9 : Graph :=
  { nodes := [mkDNode "r1" "alice" "assistant" "hi" "t0"], edges := [] }

/-- A two-hop chain `r -> m -> a` of `HAS_CHILD` edges. -/
def G10 : Graph :=
  { nodes := [mkDNode "r" "u" "assistant" "root" "t0",
              mkDNode "m" "u" "user" "middle" "t1",
              mkDNode "a" "u" "assistant" "anchor" "t2"],
    edges := [{ src := 0, tgt := 1, typ := "HAS_CHILD", fragment_id := none },
              { src := 1, tgt := 2, typ := "HAS_CHILD", fragment_id := none }] }

/-- Placeholder node for reading a tree out of an `Option`. -/
def fallbackNode : StoredNode :=
  { label := "", node_id := none, user_id := none, role := none,
    content := none, intent := none, mastery_score := none,
    timestamp := none, title := none, ntype := none }

/-- Read a concrete tree out of an `Option DTree`. -/
def Tof (o : Option DTree) : DTree :=
  o.getD (DTree.mk fallbackNode [])

/-! ### Supporting lemmas and claim theorems -/

theorem isDialogueWithId_set (nid uid role content : String)
    (intent : Option String) (ms : Rat) (ts : String) (n : StoredNode) :
    isDialogueWithId nid (setDialogueFields uid role content intent ms ts n) =
      isDialogueWithId nid n := by
  simp [isDialogueWithId, setDialogueFields]

theorem set_set (uid role content : String) (intent : Option String)
    (ms : Rat) (ts : String) (n : StoredNode) :
    setDialogueFields uid role content intent ms ts
      (setDialogueFields uid role content intent ms ts n) =
      setDialogueFields uid role content intent ms ts n := by
  simp [setDialogueFields]

theorem set_fresh (nid uid role content : String) (intent : Option String)
    (ms : Rat) (ts : String) :
    setDialogueFields uid role content intent ms ts
      (freshDialogueNode nid uid role content intent ms ts) =
      freshDialogueNode nid uid role content intent ms ts := by
  simp [setDialogueFields, freshDialogueNode]

theorem isDialogueWithId_fresh (nid uid role content : String)
    (intent : Option String) (ms : Rat) (ts : String) :
    isDialogueWithId nid (freshDialogueNode nid uid role content intent ms ts) = true := by
  simp [isDialogueWithId, freshDialogueNode]

theorem isDialogueWithId_updFn (nid uid role content : String)
    (intent : Option String) (ms : Rat) (ts : String) (n : StoredNode) :
    isDialogueWithId nid (updFn nid uid role content intent ms ts n) =
      isDialogueWithId nid n := by
  unfold updFn
  split
  · rw [isDialogueWithId_set]
  · rfl

theorem updFn_updFn (nid uid role content : String) (intent : Option String)
    (ms : Rat) (ts : String) (n : StoredNode) :
    updFn nid uid role content intent ms ts
      (updFn nid uid role content intent ms ts n) =
      updFn nid uid role content intent ms ts n := by
  by_cases h : isDialogueWithId nid n = true
  · have h1 : updFn nid uid role content intent ms ts n =
        setDialogueFields uid role content intent ms ts n := by
      unfold updFn; rw [if_pos h]
    rw [h1]
    unfold updFn
    rw [if_pos (by rw [isDialogueWithId_set]; exact h), set_set]
  · have h1 : updFn nid uid role content intent ms ts n = n := by
      unfold updFn; rw [if_neg h]
    rw [h1, h1]

theorem any_map_updFn (nid uid role content : String) (intent : Option String)
    (ms : Rat) (ts : String) (l : List StoredNode) :
    (l.map (updFn nid uid role content intent ms ts)).any (isDialogueWithId nid) =
      l.any (isDialogueWithId nid) := by
  induction l with
  | nil => rfl
  | cons n l ih => simp [List.any_cons, isDialogueWithId_updFn, ih]

theorem map_updFn_of_not_any (nid uid role content : String)
    (intent : Option String) (ms : Rat) (ts : String) (l : List StoredNode)
    (h : l.any (isDialogueWithId nid) = false) :
    l.map (updFn nid uid role content intent ms ts) = l := by
  induction l with
  | nil => rfl
  | cons n l ih =>
    simp only [List.any_cons, Bool.or_eq_false_iff] at h
    simp only [List.map_cons, ih h.2, List.cons.injEq, and_true]
    unfold updFn
    rw [if_neg (by simp [h.1])]

theorem map_updFn_idem (nid uid role content : String) (intent : Option String)
    (ms : Rat) (ts : String) (l : List StoredNode) :
    (l.map (updFn nid uid role content intent ms ts)).map
        (updFn nid uid role content intent ms ts) =
      l.map (updFn nid uid role content intent ms ts) := by
  rw [List.map_map]
  exact List.map_congr_left (fun n _ => updFn_updFn nid uid role content intent ms ts n)

theorem save_eq_update (g : Graph) (nid uid role content : String)
    (intent : Option String) (ms : Rat) (timestamp : Option String)
    (now : String) (h : g.nodes.any (isDialogueWithId nid) = true) :
    save_dialogue_node g nid uid role content intent ms timestamp now =
      { g with nodes :=
          g.nodes.map (updFn nid uid role content intent ms (timestamp.getD now)) } := by
  simp only [save_dialogue_node, h, if_true]

theorem save_eq_append (g : Graph) (nid uid role content : String)
    (intent : Option String) (ms : Rat) (timestamp : Option String)
    (now : String) (h : g.nodes.any (isDialogueWithId nid) = false) :
    save_dialogue_node g nid uid role content intent ms timestamp now =
      { g with nodes :=
          g.nodes ++
            [freshDialogueNode nid uid role content intent ms (timestamp.getD now)] } := by
  simp only [save_dialogue_node, h, Bool.false_eq_true, if_false]

/-- C7: calling `save_dialogue_node` twice with identical field values
(with an explicitly supplied timestamp) leaves the store in the same
state as calling it once — the `MERGE ... SET` is an idempotent
create-or-replace keyed by `node_id`, so node count and all field values
agree. -/
theorem save_dialogue_node_idempotent (g : Graph)
    (nid uid role content : String) (intent : Option String) (ms : Rat)
    (t now now' : String) :
    save_dialogue_node
        (save_dialogue_node g nid uid role content intent ms (some t) now)
        nid uid role content intent ms (some t) now' =
      save_dialogue_node g nid uid role content intent ms (some t) now := by
  cases h : g.nodes.any (isDialogueWithId nid) with
  | true =>
    rw [save_eq_update g nid uid role content intent ms (some t) now h]
    rw [save_eq_update _ nid uid role content intent ms (some t) now'
      (by simpa using (any_map_updFn nid uid role content intent ms t g.nodes).trans h)]
    simp only [Option.getD_some]
    exact congrArg (fun l => Graph.mk l g.edges)
      (map_updFn_idem nid uid role content intent ms t g.nodes)
  | false =>
    rw [save_eq_append g nid uid role content intent ms (some t) now h]
    rw [save_eq_update _ nid uid role content intent ms (some t) now'
      (by
        simp only [Option.getD_some, List.any_append, List.any_cons, List.any_nil,
          isDialogueWithId_fresh, Bool.or_true, Bool.true_or])]
    simp only [Option.getD_some, List.map_append, List.map_cons, List.map_nil]
    refine congrArg (fun l => Graph.mk l g.edges) ?_
    rw [map_updFn_of_not_any nid uid role content intent ms t g.nodes h]
    have hfr : updFn nid uid role content intent ms t
        (freshDialogueNode nid uid role content intent ms t) =
        freshDialogueNode nid uid role content intent ms t := by
      unfold updFn
      rw [if_pos (isDialogueWithId_fresh nid uid role content intent ms t),
        set_fresh]
    rw [hfr]

theorem edgeMatches_new (frag : Option String) (a b : Nat) :
    edgeMatches frag a b
      { src := a, tgt := b, typ := "HAS_CHILD", fragment_id := frag } = true := by
  cases frag <;> simp [edgeMatches]

theorem any_append_left {l l' : List StoredEdge} {q : StoredEdge → Bool}
    (h : l.any q = true) : (l ++ l').any q = true := by
  rw [List.any_append, h, Bool.true_or]

theorem mergePairs_any (frag : Option String) (a b : Nat) :
    ∀ (l : List (Nat × Nat)) (es : List StoredEdge),
      es.any (edgeMatches frag a b) = true →
      (mergePairs frag es l).any (edgeMatches frag a b) = true
  | [], _, h => h
  | (_, _) :: rest, es, h => by
    unfold mergePairs
    split
    · exact mergePairs_any frag a b rest es h
    · exact mergePairs_any frag a b rest _ (any_append_left h)

theorem mergePairs_mem (frag : Option String) (a b : Nat) :
    ∀ (l : List (Nat × Nat)) (es : List StoredEdge), (a, b) ∈ l →
      (mergePairs frag es l).any (edgeMatches frag a b) = true
  | (x, y) :: rest, es, hmem => by
    rcases List.mem_cons.mp hmem with heq | hrest
    · injection heq with hx hy
      subst hx
      subst hy
      unfold mergePairs
      split
      · rename_i hhit
        exact mergePairs_any frag a b rest es hhit
      · apply mergePairs_any frag a b rest
        rw [List.any_append, List.any_cons, List.any_nil, edgeMatches_new,
          Bool.true_or, Bool.or_true]
    · unfold mergePairs
      split
      · exact mergePairs_mem frag a b rest es hrest
      · exact mergePairs_mem frag a b rest _ hrest

theorem mergePairs_noop (frag : Option String) :
    ∀ (l : List (Nat × Nat)) (es : List StoredEdge),
      (∀ x ∈ l, es.any (edgeMatches frag x.1 x.2) = true) →
      mergePairs frag es l = es
  | [], _, _ => rfl
  | (x, y) :: rest, es, h => by
    unfold mergePairs
    rw [if_pos (h (x, y) (List.mem_cons_self _ _))]
    exact mergePairs_noop frag rest es (fun z hz => h z (List.mem_cons_of_mem _ hz))

theorem existsDialogue_idx (g : Graph) (nid : String)
    (h : existsDialogue g nid = true) : ∃ a, a ∈ dialogueIdxs g nid := by
  obtain ⟨n, hn, hq⟩ := List.any_eq_true.mp h
  obtain ⟨i, hi⟩ := List.mem_iff_getElem?.mp hn
  refine ⟨i, ?_⟩
  unfold dialogueIdxs
  apply List.mem_map.mpr
  refine ⟨(i, n), ?_, rfl⟩
  apply List.mem_filter.mpr
  exact ⟨List.mem_enum_iff_getElem?.mpr (by simpa using hi), hq⟩

/-- C6: `link_dialogue_nodes` with a missing parent or child raises its
dangling-reference `ValueError` and leaves the store untouched; with both
endpoints present it succeeds, touches no node, leaves a matching
`HAS_CHILD` edge, and re-linking identically is a no-op. -/
theorem link_dialogue_nodes_spec (g : Graph) (p c : String) (f : Option String) :
    ((existsDialogue g p = false ∨ existsDialogue g c = false) →
      (link_dialogue_nodes g p c f).1 = g ∧
        ((link_dialogue_nodes g p c f).2).isSome = true) ∧
    (existsDialogue g p = true → existsDialogue g c = true →
      (link_dialogue_nodes g p c f).2 = none ∧
      ((link_dialogue_nodes g p c f).1).nodes = g.nodes ∧
      linkedEdgeExists (link_dialogue_nodes g p c f).1 p c f = true ∧
      link_dialogue_nodes ((link_dialogue_nodes g p c f).1) p c f =
        ((link_dialogue_nodes g p c f).1, none)) := by
  constructor
  · intro h
    by_cases hp : existsDialogue g p = false
    · unfold link_dialogue_nodes
      rw [if_pos hp]
      exact ⟨rfl, rfl⟩
    · have hc : existsDialogue g c = false := by
        rcases h with h | h
        · exact absurd h hp
        · exact h
      unfold link_dialogue_nodes
      rw [if_neg hp, if_pos hc]
      exact ⟨rfl, rfl⟩
  · intro hp hc
    have hp' : ¬ existsDialogue g p = false := by simp [hp]
    have hc' : ¬ existsDialogue g c = false := by simp [hc]
    have hlink : link_dialogue_nodes g p c f = (linkBody g p c f, none) := by
      unfold link_dialogue_nodes
      rw [if_neg hp', if_neg hc']
    rw [hlink]
    refine ⟨rfl, rfl, ?_, ?_⟩
    · obtain ⟨a, ha⟩ := existsDialogue_idx g p hp
      obtain ⟨b, hb⟩ := existsDialogue_idx g c hc
      have hpair : (a, b) ∈ linkPairs g p c :=
        List.mem_flatMap.mpr ⟨a, ha, List.mem_map.mpr ⟨b, hb, rfl⟩⟩
      have hedge : ((linkBody g p c f).edges).any (edgeMatches (effFrag f) a b) = true :=
        mergePairs_mem (effFrag f) a b (linkPairs g p c) g.edges hpair
      apply List.any_eq_true.mpr
      exact ⟨a, ha, List.any_eq_true.mpr ⟨b, hb, hedge⟩⟩
    · have hp2 : existsDialogue (linkBody g p c f) p = true := hp
      have hc2 : existsDialogue (linkBody g p c f) c = true := hc
      unfold link_dialogue_nodes
      rw [if_neg (by simp [hp2]), if_neg (by simp [hc2])]
      have hnoop : mergePairs (effFrag f) ((linkBody g p c f).edges)
          (linkPairs (linkBody g p c f) p c) = (linkBody g p c f).edges := by
        apply mergePairs_noop
        intro x hx
        exact mergePairs_mem (effFrag f) x.1 x.2 (linkPairs g p c) g.edges hx
      unfold linkBody
      unfold linkBody at hnoop
      rw [hnoop]

/-- Witness for C6: on the concrete two-node store, linking to a missing
child raises and leaves the store unchanged, while linking `p -> c`
succeeds, leaves a matching edge, and re-linking is a no-op. -/
theorem link_dialogue_nodes_spec_witness :
    ((link_dialogue_nodes G6 "p" "zzz" none).1 = G6 ∧
      ((link_dialogue_nodes G6 "p" "zzz" none).2).isSome = true) ∧
    ((link_dialogue_nodes G6 "p" "c" none).2 = none ∧
      ((link_dialogue_nodes G6 "p" "c" none).1).nodes = G6.nodes ∧
      linkedEdgeExists (link_dialogue_nodes G6 "p" "c" none).1 "p" "c" none = true ∧
      link_dialogue_nodes ((link_dialogue_nodes G6 "p" "c" none).1) "p" "c" none =
        ((link_dialogue_nodes G6 "p" "c" none).1, none)) :=
  ⟨(link_dialogue_nodes_spec G6 "p" "zzz" none).1 (Or.inr (by decide)),
   (link_dialogue_nodes_spec G6 "p" "c" none).2 (by decide) (by decide)⟩

theorem forestHeight_le (n : Nat) :
    ∀ (l : List DTree), (∀ t ∈ l, treeHeight t + 1 ≤ n) → forestHeight l ≤ n
  | [], _ => Nat.zero_le n
  | t :: ts, h => by
    simp only [forestHeight]
    exact Nat.max_le.mpr
      ⟨h t (List.mem_cons_self t ts),
       forestHeight_le n ts (fun u hu => h u (List.mem_cons_of_mem t hu))⟩

theorem get_children_height (g : Graph) :
    ∀ (fuel : Nat) (pid : String), forestHeight (get_children g fuel pid) ≤ fuel := by
  intro fuel
  induction fuel with
  | zero =>
    intro pid
    simp [get_children, forestHeight]
  | succ fuel ih =>
    intro pid
    apply forestHeight_le
    intro t ht
    unfold get_children at ht
    obtain ⟨c, _, hsome⟩ := List.mem_filterMap.mp ht
    cases hnid : c.node_id with
    | none =>
      rw [hnid] at hsome
      simp at hsome
    | some cid =>
      rw [hnid] at hsome
      by_cases h0 : cid = ""
      · simp [h0] at hsome
      · simp only [h0, if_false] at hsome
        injection hsome with hsome
        rw [← hsome]
        simp only [treeHeight]
        exact Nat.succ_le_succ (ih cid)

/-- C3: for every store state — including one with a `HAS_CHILD` cycle
back to the root — `get_dialogue_tree` is total and the returned tree has
no node deeper than `max_depth` below the root; deeper nodes are simply
omitted. -/
theorem get_dialogue_tree_depth_bounded (g : Graph) (r u : String) (d : Nat)
    (t : DTree) (h : get_dialogue_tree g r u d = some t) : treeHeight t ≤ d := by
  unfold get_dialogue_tree at h
  cases hf : rootFind g r u with
  | none =>
    rw [hf] at h
    exact absurd h (by simp)
  | some root =>
    rw [hf] at h
    injection h with h
    rw [← h]
    simp only [treeHeight]
    exact get_children_height g d r

/-- Witness for C3: on the store whose single node `A` has a `HAS_CHILD`
edge back to itself, the build still terminates and the default depth
bound of 10 holds. -/
theorem get_dialogue_tree_depth_bounded_witness :
    treeHeight (Tof (get_dialogue_tree Gcyc "A" "u" 10)) ≤ 10 :=
  get_dialogue_tree_depth_bounded Gcyc "A" "u" 10
    (Tof (get_dialogue_tree Gcyc "A" "u" 10)) (by rfl)

/-- Counterexample to C4 as stated: on the store whose node `A` has a
`HAS_CHILD` edge back to itself, the traversal does not skip the
revisited `node_id` — with depth bound 2 the returned tree repeats `A`
along its root-to-leaf path, so "no node_id occurs more than once on any
root-to-leaf path" fails. -/
theorem get_children_cycle_not_skipped :
    (get_dialogue_tree Gcyc "A" "u" 2).map hasPathDup = some true := by
  rfl

theorem get_children_idsOk (g : Graph) :
    ∀ (fuel : Nat) (pid : String), forestIdsOk (get_children g fuel pid) = true := by
  intro fuel
  induction fuel with
  | zero =>
    intro pid
    rfl
  | succ fuel ih =>
    intro pid
    unfold get_children
    induction sortedChildRows g pid with
    | nil => rfl
    | cons c rest ihr =>
      simp only [List.filterMap_cons]
      cases hc : c.node_id with
      | none =>
        simp only [hc]
        exact ihr
      | some cid =>
        by_cases h0 : cid = ""
        · simp only [hc, h0, if_true]
          exact ihr
        · simp only [hc, h0, if_false]
          simp only [forestIdsOk, nodeIdOk, hc]
          simp [h0, ih cid, ihr]

/-- C4 (amended): a child row whose node lacks a `node_id` property (or
has an empty one) is skipped and the build never fails, but a traversal
step revisiting a `node_id` on the current path is NOT skipped — cycles
are only cut by the depth bound, so a `node_id` may repeat along a
root-to-leaf path.  What does hold: every node of a returned tree carries
a `node_id`, non-empty below the root. -/
theorem get_dialogue_tree_ids_ok (g : Graph) (r u : String) (d : Nat)
    (t : DTree) (h : get_dialogue_tree g r u d = some t) :
    (t.node).node_id.isSome = true ∧ forestIdsOk t.children = true := by
  unfold get_dialogue_tree at h
  cases hf : rootFind g r u with
  | none =>
    rw [hf] at h
    exact absurd h (by simp)
  | some root =>
    rw [hf] at h
    injection h with h
    rw [← h]
    constructor
    · cases hr : root.node_id with
      | none => simp [DTree.node, hr]
      | some s => simp [DTree.node, hr]
    · simp only [DTree.children]
      exact get_children_idsOk g d r

/-- Witness for the amended C4: on the store whose root `A` has one
malformed child (no `node_id`) and one well-formed child `B`, the
malformed row is skipped and every returned node carries a `node_id`. -/
theorem get_dialogue_tree_ids_ok_witness :
    (Tof (get_dialogue_tree G4 "A" "u" 10)).children.map (fun c => c.node.node_id) =
        [some "B"] ∧
      forestIdsOk (Tof (get_dialogue_tree G4 "A" "u" 10)).children = true :=
  ⟨by rfl,
   (get_dialogue_tree_ids_ok G4 "A" "u" 10
     (Tof (get_dialogue_tree G4 "A" "u" 10)) (by rfl)).2⟩

/-- Counterexample to C5 as stated: the child query orders by
`child.timestamp` only — with two equal-timestamp children stored in
anti-lexical order (`b` before `a`), the returned children stay in store
order `[b, a]`, so the claimed lexical `node_id` tie-break does not hold. -/
theorem get_dialogue_tree_no_lexical_tiebreak :
    (get_dialogue_tree G5 "p" "u" 10).map
        (fun t => t.children.map (fun c => c.node.node_id)) =
        some [some "b", some "a"] ∧
      (get_dialogue_tree G5 "p" "u" 10).map claimOrdered = some false :=
  ⟨rfl, rfl⟩

theorem clLe_trans : ∀ a b c, clLe a b = true → clLe b c = true → clLe a c = true
  | [], _, _, _, _ => rfl
  | _ :: _, [], _, h1, _ => by simp [clLe] at h1
  | _ :: _, _ :: _, [], _, h2 => by simp [clLe] at h2
  | x :: xs, y :: ys, z :: zs, h1, h2 => by
    have e1 : clLe (x :: xs) (y :: ys) =
        if x = y then clLe xs ys else decide (x < y) := rfl
    have e2 : clLe (y :: ys) (z :: zs) =
        if y = z then clLe ys zs else decide (y < z) := rfl
    have e3 : clLe (x :: xs) (z :: zs) =
        if x = z then clLe xs zs else decide (x < z) := rfl
    rw [e1] at h1
    rw [e2] at h2
    rw [e3]
    by_cases hxy : x = y
    · rw [if_pos hxy] at h1
      subst hxy
      by_cases hxz : x = z
      · rw [if_pos hxz] at *
        exact clLe_trans xs ys zs h1 h2
      · rw [if_neg hxz] at *
        exact h2
    · rw [if_neg hxy] at h1
      by_cases hyz : y = z
      · subst hyz
        rw [if_neg hxy]
        exact h1
      · rw [if_neg hyz] at h2
        have hlt := lt_trans (of_decide_eq_true h1) (of_decide_eq_true h2)
        rw [if_neg (ne_of_lt hlt)]
        exact decide_eq_true hlt

theorem optLe_total : ∀ a b, optLe a b = true ∨ optLe b a = true
  | none, none => Or.inl rfl
  | none, some _ => Or.inr rfl
  | some _, none => Or.inl rfl
  | some x, some y => strLe_total x y

theorem optLe_trans : ∀ a b c, optLe a b = true → optLe b c = true → optLe a c = true
  | none, none, _, _, h2 => h2
  | none, some _, _, h1, _ => by simp [optLe] at h1
  | some _, none, none, _, _ => rfl
  | some _, none, some _, _, h2 => by simp [optLe] at h2
  | some _, some _, none, _, _ => rfl
  | some x, some y, some z, h1, h2 => clLe_trans x.data y.data z.data h1 h2

theorem rowLe_total (a b : StoredNode) : rowLe a b = true ∨ rowLe b a = true :=
  optLe_total a.timestamp b.timestamp

theorem rowLe_trans (a b c : StoredNode) :
    rowLe a b = true → rowLe b c = true → rowLe a c = true :=
  optLe_trans a.timestamp b.timestamp c.timestamp

theorem mem_orderedInsertB {α : Type} (le : α → α → Bool) (a : α) :
    ∀ (l : List α) (x : α), x ∈ orderedInsertB le a l ↔ x = a ∨ x ∈ l
  | [], x => by simp [orderedInsertB]
  | b :: l, x => by
    unfold orderedInsertB
    split
    · simp only [List.mem_cons]
    · simp only [List.mem_cons, mem_orderedInsertB le a l x]
      tauto

theorem pairwise_orderedInsertB {α : Type} (le : α → α → Bool)
    (htot : ∀ x y, le x y = true ∨ le y x = true)
    (htrans : ∀ x y z, le x y = true → le y z = true → le x z = true)
    (a : α) : ∀ (l : List α),
      List.Pairwise (fun x y => le x y = true) l →
      List.Pairwise (fun x y => le x y = true) (orderedInsertB le a l)
  | [], _ => by simp [orderedInsertB]
  | b :: l, h => by
    obtain ⟨hb, hl⟩ := List.pairwise_cons.mp h
    unfold orderedInsertB
    split
    · rename_i hab
      apply List.pairwise_cons.mpr
      refine ⟨?_, h⟩
      intro y hy
      rcases List.mem_cons.mp hy with heq | hy
      · rw [heq]
        exact hab
      · exact htrans a b y hab (hb y hy)
    · rename_i hab
      apply List.pairwise_cons.mpr
      refine ⟨?_, pairwise_orderedInsertB le htot htrans a l hl⟩
      intro y hy
      rcases (mem_orderedInsertB le a l y).mp hy with heq | hy
      · rw [heq]
        rcases htot a b with h' | h'
        · exact absurd h' hab
        · exact h'
      · exact hb y hy

theorem pairwise_insertionSortB {α : Type} (le : α → α → Bool)
    (htot : ∀ x y, le x y = true ∨ le y x = true)
    (htrans : ∀ x y z, le x y = true → le y z = true → le x z = true) :
    ∀ (l : List α), List.Pairwise (fun x y => le x y = true) (insertionSortB le l)
  | [] => by simp [insertionSortB]
  | a :: l => by
    unfold insertionSortB
    exact pairwise_orderedInsertB le htot htrans a _
      (pairwise_insertionSortB le htot htrans l)

theorem chainLeB_of_pairwise {α : Type} (le : α → α → Bool) :
    ∀ (l : List α), List.Pairwise (fun x y => le x y = true) l →
      chainLeB le l = true
  | [], _ => rfl
  | [_], _ => rfl
  | a :: b :: l, h => by
    obtain ⟨ha, h'⟩ := List.pairwise_cons.mp h
    unfold chainLeB
    rw [ha b (List.mem_cons_self b l),
      chainLeB_of_pairwise le (b :: l) h', Bool.and_self]

theorem childFn_node (g : Graph) (fuel : Nat) (c : StoredNode) (t : DTree)
    (h : (match c.node_id with
          | none => none
          | some cid =>
            if cid = "" then none
            else some (DTree.mk c (get_children g fuel cid))) = some t) :
    t.node = c := by
  cases hc : c.node_id with
  | none =>
    rw [hc] at h
    simp at h
  | some cid =>
    rw [hc] at h
    by_cases h0 : cid = ""
    · simp [h0] at h
    · simp only [h0, if_false] at h
      injection h with h
      rw [← h]
      rfl

theorem get_children_pairwise (g : Graph) :
    ∀ (fuel : Nat) (pid : String),
      List.Pairwise (fun t u => childLe t u = true) (get_children g fuel pid)
  | 0, _ => List.Pairwise.nil
  | fuel + 1, pid => by
    unfold get_children
    apply List.pairwise_filterMap.mpr
    have hs : List.Pairwise (fun x y => rowLe x y = true) (sortedChildRows g pid) :=
      pairwise_insertionSortB rowLe rowLe_total rowLe_trans (childRows g pid)
    apply hs.imp
    intro a b hab x hx y hy
    rw [Option.mem_def] at hx hy
    have hxa := childFn_node g fuel a x hx
    have hyb := childFn_node g fuel b y hy
    show optLe x.node.timestamp y.node.timestamp = true
    rw [hxa, hyb]
    exact hab

theorem get_children_chain (g : Graph) (fuel : Nat) (pid : String) :
    chainLeB childLe (get_children g fuel pid) = true :=
  chainLeB_of_pairwise childLe _ (get_children_pairwise g fuel pid)

theorem get_children_tsSorted (g : Graph) :
    ∀ (fuel : Nat) (pid : String),
      forestTsSorted (get_children g fuel pid) = true := by
  intro fuel
  induction fuel with
  | zero =>
    intro pid
    rfl
  | succ fuel ih =>
    intro pid
    unfold get_children
    induction sortedChildRows g pid with
    | nil => rfl
    | cons c rest ihr =>
      simp only [List.filterMap_cons]
      cases hc : c.node_id with
      | none =>
        simp only [hc]
        exact ihr
      | some cid =>
        by_cases h0 : cid = ""
        · simp only [hc, h0, if_true]
          exact ihr
        · simp only [hc, h0, if_false]
          simp only [forestTsSorted, treeTsSorted]
          simp [get_children_chain g fuel cid, ih cid, ihr]

/-- C5 (amended): the children at each level of a returned tree are in
ascending `timestamp` order; equal timestamps keep the store's row order
— the query has no `node_id` tie-break. -/
theorem get_dialogue_tree_ts_sorted (g : Graph) (r u : String) (d : Nat)
    (t : DTree) (h : get_dialogue_tree g r u d = some t) :
    treeTsSorted t = true := by
  unfold get_dialogue_tree at h
  cases hf : rootFind g r u with
  | none =>
    rw [hf] at h
    exact absurd h (by simp)
  | some root =>
    rw [hf] at h
    injection h with h
    rw [← h]
    simp only [treeTsSorted]
    simp [get_children_chain g d r, get_children_tsSorted g d r]

/-- Witness for the amended C5: the concrete equal-timestamp store
evaluates to a tree whose levels are ascending in `timestamp`. -/
theorem get_dialogue_tree_ts_sorted_witness :
    treeTsSorted (Tof (get_dialogue_tree G5 "p" "u" 10)) = true :=
  get_dialogue_tree_ts_sorted G5 "p" "u" 10
    (Tof (get_dialogue_tree G5 "p" "u" 10)) (by rfl)

theorem rootFind_eq_none (g : Graph) (rid uid : String)
    (h : ∀ n ∈ g.nodes,
      ¬(n.label = "DialogueNode" ∧ n.node_id = some rid ∧ n.user_id = some uid)) :
    rootFind g rid uid = none := by
  apply List.find?_eq_none.mpr
  intro n hn hpred
  simp only [Bool.and_eq_true, decide_eq_true_eq] at hpred
  exact h n hn ⟨hpred.1.1, hpred.1.2, hpred.2⟩

/-- C9: when no `DialogueNode` with the requested `node_id` is owned by
the requesting user — including when such a node exists under a different
owner — `get_dialogue_tree` returns `None` and the conversation route
surfaces the same 404, indistinguishable between the two cases. -/
theorem get_dialogue_tree_not_found (g : Graph) (rid uid : String)
    (h : ∀ n ∈ g.nodes,
      ¬(n.label = "DialogueNode" ∧ n.node_id = some rid ∧ n.user_id = some uid)) :
    (∀ d, get_dialogue_tree g rid uid d = none) ∧
      get_conversation g rid uid = Except.error 404 := by
  have hf := rootFind_eq_none g rid uid h
  have htree : ∀ d, get_dialogue_tree g rid uid d = none := by
    intro d
    unfold get_dialogue_tree
    rw [hf]
  refine ⟨htree, ?_⟩
  unfold get_conversation
  rw [htree 10]

/-- Witness for C9: the store's only root `r1` belongs to `alice`; a
request by `bob` gets `None`, surfaced as 404. -/
theorem get_dialogue_tree_not_found_witness :
    get_dialogue_tree G9 "r1" "bob" 10 = none ∧
      get_conversation G9 "r1" "bob" = Except.error 404 :=
  ⟨(get_dialogue_tree_not_found G9 "r1" "bob" (by decide)).1 10,
   (get_dialogue_tree_not_found G9 "r1" "bob" (by decide)).2⟩

theorem char_toNat_ofNat (n : Nat) (h : n < 55296) : (Char.ofNat n).toNat = n := by
  unfold Char.ofNat
  rw [dif_pos (Or.inl h)]
  rfl

theorem char_toNat_inj {c d : Char} (h : c.toNat = d.toNat) : c = d := by
  have h1 := Char.ofNat_toNat c
  have h2 := Char.ofNat_toNat d
  rw [← h1, ← h2, h]

theorem char_eq_iff_toNat (c d : Char) : c = d ↔ c.toNat = d.toNat :=
  ⟨fun e => by rw [e], char_toNat_inj⟩

theorem pyIsSpace_iff (c : Char) : pyIsSpace c = true ↔
    (c.toNat = 32 ∨ c.toNat = 9 ∨ c.toNat = 10 ∨ c.toNat = 13 ∨
      c.toNat = 11 ∨ c.toNat = 12) := by
  simp only [pyIsSpace, Bool.or_eq_true, decide_eq_true_eq]
  rw [char_eq_iff_toNat c ' ', char_eq_iff_toNat c '\t', char_eq_iff_toNat c '\n',
      char_eq_iff_toNat c '\r', char_eq_iff_toNat c '\x0b', char_eq_iff_toNat c '\x0c']
  simp only [show (' ' : Char).toNat = 32 from rfl, show ('\t' : Char).toNat = 9 from rfl,
    show ('\n' : Char).toNat = 10 from rfl, show ('\r' : Char).toNat = 13 from rfl,
    show ('\x0b' : Char).toNat = 11 from rfl, show ('\x0c' : Char).toNat = 12 from rfl]
  tauto

theorem pyIsSpace_toLower (c : Char) : pyIsSpace (Char.toLower c) = pyIsSpace c := by
  show pyIsSpace (if c.toNat ≥ 65 ∧ c.toNat ≤ 90 then Char.ofNat (c.toNat + 32) else c) =
    pyIsSpace c
  by_cases h : c.toNat ≥ 65 ∧ c.toNat ≤ 90
  · rw [if_pos h]
    have h2 : (Char.ofNat (c.toNat + 32)).toNat = c.toNat + 32 :=
      char_toNat_ofNat _ (by omega)
    have ha : pyIsSpace (Char.ofNat (c.toNat + 32)) = false := by
      rw [← Bool.not_eq_true, pyIsSpace_iff, h2]
      omega
    have hb : pyIsSpace c = false := by
      rw [← Bool.not_eq_true, pyIsSpace_iff]
      omega
    rw [ha, hb]
  · rw [if_neg h]

theorem infix_dropWhile (q : Char → Bool) (pat : List Char) (hne : pat ≠ [])
    (hno : ∀ c ∈ pat, q c = false) :
    ∀ s : List Char, pat <:+: s → pat <:+: s.dropWhile q
  | [], h => by simpa using h
  | c :: s, h => by
    by_cases hc : q c = true
    · simp only [List.dropWhile_cons, hc, if_true]
      rcases List.infix_cons_iff.mp h with hpre | hinf
      · cases pat with
        | nil => exact absurd rfl hne
        | cons p0 ps =>
          obtain ⟨hp0, _⟩ := List.cons_prefix_cons.mp hpre
          have := hno p0 (List.mem_cons_self p0 ps)
          rw [hp0, hc] at this
          exact absurd this (by simp)
      · exact infix_dropWhile q pat hne hno s hinf
    · simp only [List.dropWhile_cons, hc, if_false]
      exact h

theorem infix_trimL (pat : List Char) (hne : pat ≠ [])
    (hno : ∀ c ∈ pat, pyIsSpace c = false) (s : List Char) :
    pat <:+: trimL s ↔ pat <:+: s := by
  constructor
  · intro h
    have h1 : List.dropWhile pyIsSpace s <:+ s := List.dropWhile_suffix _
    have h2 : List.dropWhile pyIsSpace (List.dropWhile pyIsSpace s).reverse <:+
        (List.dropWhile pyIsSpace s).reverse := List.dropWhile_suffix _
    have h3 : trimL s <+: List.dropWhile pyIsSpace s := by
      unfold trimL
      rw [← List.reverse_suffix, List.reverse_reverse]
      exact h2
    exact (h.trans h3.isInfix).trans h1.isInfix
  · intro h
    have h1 : pat <:+: List.dropWhile pyIsSpace s :=
      infix_dropWhile pyIsSpace pat hne hno s h
    have h2 : pat.reverse <:+: (List.dropWhile pyIsSpace s).reverse :=
      List.reverse_infix.mpr h1
    have h3 : pat.reverse <:+:
        List.dropWhile pyIsSpace (List.dropWhile pyIsSpace s).reverse :=
      infix_dropWhile pyIsSpace pat.reverse (by simpa using hne)
        (fun c hc => hno c (List.mem_reverse.mp hc)) _ h2
    have h4 := List.reverse_infix.mpr h3
    simpa using h4

theorem lowerL_dropWhile (s : List Char) :
    lowerL (List.dropWhile pyIsSpace s) = List.dropWhile pyIsSpace (lowerL s) := by
  unfold lowerL
  rw [List.dropWhile_map]
  congr 2
  exact (funext pyIsSpace_toLower).symm

theorem lowerL_reverse (s : List Char) : lowerL s.reverse = (lowerL s).reverse := by
  unfold lowerL
  exact List.map_reverse Char.toLower s

theorem lowerL_trimL (s : List Char) : lowerL (trimL s) = trimL (lowerL s) := by
  unfold trimL
  rw [lowerL_reverse, lowerL_dropWhile, lowerL_reverse, lowerL_dropWhile]

theorem containsL_trim (pat : List Char) (hne : pat ≠ [])
    (hno : ∀ c ∈ pat, pyIsSpace c = false) (s : List Char) :
    containsL pat (lowerL (trimL s)) = containsL pat (lowerL s) := by
  unfold containsL
  rw [lowerL_trimL]
  exact decide_eq_decide.mpr (infix_trimL pat hne hno (lowerL s))

/-- C8: `IntentRouter.route` returns `code` when the completion response
text contains `"code"`/`"代码"` case-insensitively (the `strip()` cannot
affect these whitespace-free patterns), else `derivation` on
`"derivation"`/`"推导"`, else the `concept` default; a raised completion
call also yields `concept`, so the router always returns one of the three
intents and never raises. -/
theorem route_spec (t e : String) :
    route (Except.error e) = IntentType.CONCEPT ∧
    ((mentionsCI "code" t || mentionsCI "代码" t) = true →
      route (Except.ok t) = IntentType.CODE) ∧
    ((mentionsCI "code" t || mentionsCI "代码" t) = false →
      (mentionsCI "derivation" t || mentionsCI "推导" t) = true →
      route (Except.ok t) = IntentType.DERIVATION) ∧
    ((mentionsCI "code" t || mentionsCI "代码" t) = false →
      (mentionsCI "derivation" t || mentionsCI "推导" t) = false →
      route (Except.ok t) = IntentType.CONCEPT) := by
  have hcode := containsL_trim "code".data (by decide) (by decide) t.data
  have hcn := containsL_trim "代码".data (by decide) (by decide) t.data
  have hder := containsL_trim "derivation".data (by decide) (by decide) t.data
  have htui := containsL_trim "推导".data (by decide) (by decide) t.data
  refine ⟨rfl, ?_, ?_, ?_⟩
  · intro h
    simp only [mentionsCI] at h
    simp only [route, hcode, hcn]
    rw [h, if_pos rfl]
  · intro h1 h2
    simp only [mentionsCI] at h1 h2
    simp only [route, hcode, hcn, hder, htui]
    rw [h1, h2]
    rw [if_neg (by simp), if_pos rfl]
  · intro h1 h2
    simp only [mentionsCI] at h1 h2
    simp only [route, hcode, hcn, hder, htui]
    rw [h1, h2]
    rw [if_neg (by simp), if_neg (by simp)]

/-- Witness for C8: a completion answer `"  CODE!"` classifies as `code`
(case-insensitively, despite surrounding whitespace), and a raised
completion call falls back to `concept`. -/
theorem route_spec_witness :
    route (Except.ok "  CODE!") = IntentType.CODE ∧
      route (Except.error "boom") = IntentType.CONCEPT :=
  ⟨(route_spec "  CODE!" "boom").2.1 (by decide),
   (route_spec "  CODE!" "boom").1⟩

/-- C1 (code bug): the chat turn — for both `process_query` and
`process_recursive_query` — returns an answer with a fresh
`conversation_id` but performs no store operation at all: no dialogue
node is upserted, no `HAS_CHILD` edge is created, the store is returned
exactly as it was.  The claimed "exactly one new assistant node, linked
to the supplied parent" never happens. -/
theorem chat_writes_no_node (classify : Except String String)
    (strategies : IntentType → String → String) (complete : Except String String)
    (freshId : String) (g : Graph) (user_id query : String)
    (parent_id ref_fragment_id : Option String) (r : AgentResponse) (g' : Graph)
    (h : chat classify strategies complete freshId g user_id query parent_id
        ref_fragment_id = Except.ok (r, g')) :
    g' = g ∧ countAssistantNodes g' = countAssistantNodes g ∧
      g'.edges.length = g.edges.length := by
  cases ref_fragment_id with
  | none =>
    have e : chat classify strategies complete freshId g user_id query parent_id none =
        Except.ok (process_query classify strategies freshId g user_id query parent_id) := rfl
    rw [e, Except.ok.injEq] at h
    have h2 : g = g' := congrArg Prod.snd h
    subst h2
    exact ⟨rfl, rfl, rfl⟩
  | some f =>
    by_cases hf : f = ""
    · have e0 : chat classify strategies complete freshId g user_id query parent_id (some f) =
          if f = "" then
            Except.ok (process_query classify strategies freshId g user_id query parent_id)
          else
            process_recursive_query complete freshId g user_id (parent_id.getD "") f query := rfl
      have e : chat classify strategies complete freshId g user_id query parent_id (some f) =
          Except.ok (process_query classify strategies freshId g user_id query parent_id) := by
        rw [e0, if_pos hf]
      rw [e, Except.ok.injEq] at h
      have h2 : g = g' := congrArg Prod.snd h
      subst h2
      exact ⟨rfl, rfl, rfl⟩
    · have e0 : chat classify strategies complete freshId g user_id query parent_id (some f) =
          if f = "" then
            Except.ok (process_query classify strategies freshId g user_id query parent_id)
          else
            process_recursive_query complete freshId g user_id (parent_id.getD "") f query := rfl
      have e : chat classify strategies complete freshId g user_id query parent_id (some f) =
          process_recursive_query complete freshId g user_id (parent_id.getD "") f query := by
        rw [e0, if_neg hf]
      rw [e] at h
      cases complete with
      | error er => exact absurd h (by simp [process_recursive_query])
      | ok text =>
        simp only [process_recursive_query, Except.ok.injEq] at h
        have h2 : g = g' := congrArg Prod.snd h
        subst h2
        exact ⟨rfl, rfl, rfl⟩

/-- Witness for C1 at the failing input: a plain question from `u1` on
the empty store produces an answer and a fresh id `B1`, yet the store
still has zero nodes and zero edges afterwards. -/
theorem chat_writes_no_node_witness :
    G0 = G0 ∧ countAssistantNodes G0 = countAssistantNodes G0 ∧
      G0.edges.length = G0.edges.length :=
  chat_writes_no_node (Except.ok "derivation") (fun _ _ => "ans") (Except.ok "x")
    "B1" G0 "u1" "为什么矩阵的特征值等于其行列式的值？" none none
    { answer := "ans", fragments := [], knowledge_triples := [],
      conversation_id := "B1", parent_id := none } G0 rfl

/-- C2: the mind-map route calls `neo4j_client.query`, a method the
`Neo4jClient` class does not define; the `AttributeError` is swallowed by
the catch-all handler, so every request — any store state, any anchor,
any user — receives the empty graph. -/
theorem get_mind_map_always_empty (g : Graph) (conversation_id user_id : String) :
    get_mind_map g conversation_id user_id = { nodes := [], edges := [] } := rfl

/-- Counterexample to C10 as stated: in the chain `r -> m -> a`, the node
`r` is the top-most ancestor of the anchor `a` (no incoming typed edge),
two hops up; yet the query emits rows whose source is `m`, the anchor's
immediate parent, not `r`. -/
theorem mindmap_walk_counterexample :
    typedParentIdxs G10 0 = [] ∧
      typedParentIdxs G10 2 = [1] ∧
      typedParentIdxs G10 1 = [0] ∧
      (mindmap_cypher G10 "a").map (fun row => row.source_id) = [some "m"] ∧
      ¬(mindmap_cypher G10 "a").map (fun row => row.source_id) = [some "r"] :=
  ⟨rfl, rfl, rfl, rfl, by decide⟩

/-- C10 (amended): the projection's backward walk is exactly one hop —
every emitted row's source is either a matched anchor itself (when it has
no incoming `HAS_CHILD`/`HAS_KEYWORD` edge) or an immediate typed parent
of a matched anchor; it is not the transitive top-most ancestor. -/
theorem mindmap_cypher_one_hop (g : Graph) (cid : String) (row : MMRow)
    (h : row ∈ mindmap_cypher g cid) :
    ∃ n r, n ∈ anchorIdxs g cid ∧
      ((typedParentIdxs g n = [] ∧ r = n) ∨ r ∈ typedParentIdxs g n) ∧
      ∃ rootN, g.nodes.get? r = some rootN ∧ row.source_id = rootN.node_id := by
  unfold mindmap_cypher at h
  obtain ⟨n, hn, h⟩ := List.mem_flatMap.mp h
  obtain ⟨r, hr, h⟩ := List.mem_flatMap.mp h
  refine ⟨n, r, hn, ?_, ?_⟩
  · by_cases hp : (typedParentIdxs g n).isEmpty = true
    · rw [if_pos hp] at hr
      exact Or.inl ⟨List.isEmpty_iff.mp hp, List.mem_singleton.mp hr⟩
    · rw [if_neg hp] at hr
      exact Or.inr hr
  · cases hg : g.nodes.get? r with
    | none =>
      rw [hg] at h
      simp at h
    | some rootN =>
      rw [hg] at h
      obtain ⟨p, _, hsome⟩ := List.mem_filterMap.mp h
      cases hgt : g.nodes.get? p.2.tgt with
      | none =>
        rw [hgt] at hsome
        simp at hsome
      | some childN =>
        rw [hgt] at hsome
        injection hsome with hsome
        exact ⟨rootN, rfl, by rw [← hsome]⟩

/-- Witness for the amended C10: the single row emitted for anchor `a`
of the chain store has source `m`, an immediate typed parent of `a`. -/
theorem mindmap_cypher_one_hop_witness :
    ∃ n r, n ∈ anchorIdxs G10 "a" ∧
      ((typedParentIdxs G10 n = [] ∧ r = n) ∨ r ∈ typedParentIdxs G10 n) ∧
      ∃ rootN, G10.nodes.get? r = some rootN ∧
        ({ source_id := some "m", source_title := none,
           source_content := some "middle", source_type := none,
           target_id := some "a", target_title := none,
           target_content := some "anchor", target_type := none,
           rel_id := some "1", rel_type := "HAS_CHILD" } : MMRow).source_id =
          rootN.node_id :=
  mindmap_cypher_one_hop G10 "a"
    { source_id := some "m", source_title := none,
      source_content := some "middle", source_type := none,
      target_id := some "a", target_title := none,
      target_content := some "anchor", target_type := none,
      rel_id := some "1", rel_type := "HAS_CHILD" } (by decide)
